import Mathlib

/-!
Verification of the peer-to-peer file-transfer subsystem of `drizzle_explorer`.

The development shallowly embeds the sender loop, the receiver frame handler,
the main-process write-stream IPC handlers, the signaling forwarder and the
filename-collision resolver, and proves or refutes the specification claims
about them.  Bytes are modelled as natural numbers (payload contents are
opaque to the protocol); machine reals used only for display (percentage)
are omitted; speed computation is modelled with an explicit IEEE-style
Infinity/NaN discrimination because the guard against division by zero is
exactly what is at stake there.
-/

namespace Drizzle

/-- 64 KiB chunk size, `const CHUNK_SIZE = 64 * 1024` in both
`webrtc.ts` and the worker. -/
def CHUNK_SIZE : Nat := 64 * 1024

/-! ### JSON values and the receiver's speculative decoder

`WebRTCFileTransfer.handleIncomingData` speculatively decodes every binary
frame with `new TextDecoder().decode` followed by `JSON.parse`, and treats
the frame as a control message when the parse succeeds and the result has a
truthy `type` field.  We embed a byte-level JSON parser for this purpose.
Bytes `≥ 0x80` inside string literals are mapped to single characters
rather than run through full UTF-8 decoding; this preserves parse
success/failure and equality with the ASCII literals the handler compares
against, which is all the receiver observes.  Numbers are represented
exactly as rationals; the JS float representation differs only beyond the
range exercised by the protocol. -/

inductive Json where
  | null
  | bool (b : Bool)
  /-- A JSON number in exact decimal form, with value `m * 10 ^ e` (`m`
  collects the integer and fraction digits, `e` the exponent minus the
  fraction length).  JS rounds this exact value to a float; the receiver
  only tests numbers for zero-ness and extracts small integers, on which
  exact and float semantics agree. -/
  | num (m : Int) (e : Int)
  | str (s : String)
  | arr (elems : List Json)
  | obj (fields : List (String × Json))

/-- JSON whitespace bytes (space, tab, LF, CR). -/
def isJsonWs (b : Nat) : Bool :=
  b = 0x20 || b = 0x09 || b = 0x0A || b = 0x0D

def skipWs (bs : List Nat) : List Nat := bs.dropWhile isJsonWs

def isDigitByte (b : Nat) : Bool := 0x30 ≤ b && b ≤ 0x39

/-- Value of a hex-digit byte, for `\uXXXX` escapes. -/
def hexVal (b : Nat) : Option Nat :=
  if 0x30 ≤ b && b ≤ 0x39 then some (b - 0x30)
  else if 0x41 ≤ b && b ≤ 0x46 then some (b - 0x41 + 10)
  else if 0x61 ≤ b && b ≤ 0x66 then some (b - 0x61 + 10)
  else none

/-- Parse the body of a JSON string literal (the opening quote already
consumed), returning the character list and the remaining input. -/
def parseStrChars : List Nat → Option (List Char × List Nat)
  | [] => none
  | b :: rest =>
    if b = 0x22 then some ([], rest)
    else if b = 0x5C then
      match rest with
      | 0x22 :: rs => (parseStrChars rs).map (fun p => ('"' :: p.1, p.2))
      | 0x5C :: rs => (parseStrChars rs).map (fun p => ('\\' :: p.1, p.2))
      | 0x2F :: rs => (parseStrChars rs).map (fun p => ('/' :: p.1, p.2))
      | 0x62 :: rs => (parseStrChars rs).map (fun p => (Char.ofNat 0x08 :: p.1, p.2))
      | 0x66 :: rs => (parseStrChars rs).map (fun p => (Char.ofNat 0x0C :: p.1, p.2))
      | 0x6E :: rs => (parseStrChars rs).map (fun p => ('\n' :: p.1, p.2))
      | 0x72 :: rs => (parseStrChars rs).map (fun p => ('\r' :: p.1, p.2))
      | 0x74 :: rs => (parseStrChars rs).map (fun p => ('\t' :: p.1, p.2))
      | 0x75 :: h1 :: h2 :: h3 :: h4 :: rs =>
        match hexVal h1, hexVal h2, hexVal h3, hexVal h4 with
        | some v1, some v2, some v3, some v4 =>
          (parseStrChars rs).map
            (fun p => (Char.ofNat (((v1 * 16 + v2) * 16 + v3) * 16 + v4) :: p.1, p.2))
        | _, _, _, _ => none
      | _ => none
    else if b < 0x20 then none
    else (parseStrChars rest).map (fun p => (Char.ofNat b :: p.1, p.2))

/-- Accumulate a decimal digit run into a natural number. -/
def natOfDigits (ds : List Nat) : Nat :=
  ds.foldl (fun acc d => acc * 10 + (d - 0x30)) 0

/-- Parse a JSON number (on input whose first byte is `-` or a digit). -/
def parseNumber (bs : List Nat) : Option ((Int × Int) × List Nat) :=
  let (neg, bs1) := match bs with
    | 0x2D :: rest => (true, rest)
    | _ => (false, bs)
  let intDigits := bs1.takeWhile isDigitByte
  let bs2 := bs1.dropWhile isDigitByte
  -- JSON forbids empty integer parts and leading zeros.
  if intDigits = [] then none
  else if intDigits.length > 1 && intDigits.headD 0 = 0x30 then none
  else
    let (fracDigits, bs3) := match bs2 with
      | 0x2E :: rest =>
        (rest.takeWhile isDigitByte, rest.dropWhile isDigitByte)
      | _ => ([], bs2)
    if bs2 ≠ [] && bs2.headD 0 = 0x2E && fracDigits = [] then none
    else
      let parseExp : Option (Int × List Nat) := match bs3 with
        | e :: rest =>
          if e = 0x65 || e = 0x45 then
            let (esign, rest1) := match rest with
              | 0x2B :: rs => ((1 : Int), rs)
              | 0x2D :: rs => ((-1 : Int), rs)
              | _ => ((1 : Int), rest)
            let expDigits := rest1.takeWhile isDigitByte
            if expDigits = [] then none
            else some (esign * natOfDigits expDigits, rest1.dropWhile isDigitByte)
          else some (0, bs3)
        | [] => some (0, bs3)
      match parseExp with
      | none => none
      | some (expo, bs4) =>
        let mant : Int := natOfDigits (intDigits ++ fracDigits)
        let signed : Int := if neg then -mant else mant
        some ((signed, expo - fracDigits.length), bs4)

mutual

/-- Parse one JSON value, skipping leading whitespace.  Fuel bounds the
nesting depth; every recursive call is preceded by consuming at least one
byte, so `length + 1` fuel always suffices. -/
def parseValue : Nat → List Nat → Option (Json × List Nat)
  | 0, _ => none
  | fuel + 1, bs =>
    match skipWs bs with
    | [] => none
    | b :: rest =>
      if b = 0x6E then  -- 'n'
        match rest with
        | 0x75 :: 0x6C :: 0x6C :: rs => some (.null, rs)
        | _ => none
      else if b = 0x74 then  -- 't'
        match rest with
        | 0x72 :: 0x75 :: 0x65 :: rs => some (.bool true, rs)
        | _ => none
      else if b = 0x66 then  -- 'f'
        match rest with
        | 0x61 :: 0x6C :: 0x73 :: 0x65 :: rs => some (.bool false, rs)
        | _ => none
      else if b = 0x22 then
        (parseStrChars rest).map (fun p => (.str (String.mk p.1), p.2))
      else if b = 0x5B then  -- '['
        match skipWs rest with
        | 0x5D :: rs => some (.arr [], rs)
        | other =>
          match parseValue fuel other with
          | none => none
          | some (v, r) =>
            match parseElemsTail fuel r with
            | none => none
            | some (vs, r2) => some (.arr (v :: vs), r2)
      else if b = 0x7B then  -- open brace
        match skipWs rest with
        | 0x7D :: rs => some (.obj [], rs)
        | other =>
          match parseMember fuel other with
          | none => none
          | some (kv, r) =>
            match parseMembersTail fuel r with
            | none => none
            | some (kvs, r2) => some (.obj (kv :: kvs), r2)
      else if b = 0x2D || isDigitByte b then
        (parseNumber (b :: rest)).map (fun p => (.num p.1.1 p.1.2, p.2))
      else none

/-- Parse `(ws ',' value)* ws ']'` after the first array element. -/
def parseElemsTail : Nat → List Nat → Option (List Json × List Nat)
  | 0, _ => none
  | fuel + 1, bs =>
    match skipWs bs with
    | 0x5D :: rs => some ([], rs)
    | 0x2C :: rs =>
      match parseValue fuel rs with
      | none => none
      | some (v, r) =>
        match parseElemsTail fuel r with
        | none => none
        | some (vs, r2) => some (v :: vs, r2)
    | _ => none

/-- Parse one `ws string ws ':' value` object member. -/
def parseMember : Nat → List Nat → Option ((String × Json) × List Nat)
  | 0, _ => none
  | fuel + 1, bs =>
    match skipWs bs with
    | 0x22 :: rest =>
      match parseStrChars rest with
      | none => none
      | some (key, r) =>
        match skipWs r with
        | 0x3A :: r2 =>
          match parseValue fuel r2 with
          | none => none
          | some (v, r3) => some ((String.mk key, v), r3)
        | _ => none
    | _ => none

/-- Parse `(ws ',' member)* ws closing-brace` after the first member. -/
def parseMembersTail : Nat → List Nat → Option (List (String × Json) × List Nat)
  | 0, _ => none
  | fuel + 1, bs =>
    match skipWs bs with
    | 0x7D :: rs => some ([], rs)
    | 0x2C :: rs =>
      match parseMember fuel rs with
      | none => none
      | some (kv, r) =>
        match parseMembersTail fuel r with
        | none => none
        | some (kvs, r2) => some (kv :: kvs, r2)
    | _ => none

end

/-- `JSON.parse` on raw bytes: whole-input parse (trailing whitespace
allowed, anything else is a syntax error). -/
def jsonParse? (bs : List Nat) : Option Json :=
  match parseValue (bs.length + 8) bs with
  | some (v, rest) => if skipWs rest = [] then some v else none
  | none => none

/-- `message.field` lookup.  A JS object literal keeps the last duplicate
key, hence the reversed search. -/
def getField (j : Json) (key : String) : Option Json :=
  match j with
  | .obj fields => ((fields.reverse).find? (fun p => p.1 == key)).map (fun p => p.2)
  | _ => none

/-- JS truthiness of `message.type` (`none` models `undefined`; a decimal
`m * 10 ^ e` is zero exactly when `m` is). -/
def truthy : Option Json → Bool
  | none => false
  | some .null => false
  | some (.bool b) => b
  | some (.num m _) => decide (m ≠ 0)
  | some (.str s) => decide (s ≠ "")
  | some (.arr _) => true
  | some (.obj _) => true

/-- Extract a string field the way the handler stores `message.fileName`
(the claims only exercise well-formed metadata, so missing/mistyped fields
default to `""`). -/
def jsonStr : Option Json → String
  | some (.str s) => s
  | _ => ""

/-- Extract a numeric field the way the handler stores `message.fileSize`;
the sender always emits a non-negative integer (mantissa with exponent 0),
for which the extraction is exact.  Other shapes default to 0; the claims
never exercise them. -/
def jsonNat : Option Json → Nat
  | some (.num m e) =>
    if 0 ≤ m ∧ 0 ≤ e then m.toNat * 10 ^ e.toNat else 0
  | _ => 0

/-- `message.type === t` for a string literal `t` (strict string equality,
as in `handleControlMessage`). -/
def isTypeStr (m : Json) (t : String) : Bool :=
  match getField m "type" with
  | some (.str s) => s == t
  | _ => false

/-! ### Wire frames and the sender -/

/-- Transfer status, the `status` field of `TransferProgress`. -/
inductive TStatus where
  | waiting
  | connecting
  | transferring
  | completed
  | error
  | cancelled
deriving DecidableEq, Repr

/-- A progress snapshot as delivered to `onProgressCallback`.  The derived
`percentage` display value and the optional `speed`/`savedPath` fields are
modelled separately (speed in `senderSpeed`/`workerSpeed` below). -/
structure Prog where
  fileName : String
  fileSize : Nat
  bytesTransferred : Nat
  status : TStatus
deriving DecidableEq, Repr

/-- The metadata control message `JSON.stringify({type:'metadata', fileName,
fileSize})`.  Text frames carry their JSON value directly: `stringify`
followed by the peer's `JSON.parse` is the identity on these objects. -/
def metadataMsg (name : String) (size : Nat) : Json :=
  .obj [("type", .str "metadata"), ("fileName", .str name),
        ("fileSize", .num size 0)]

def completeMsg : Json := .obj [("type", .str "complete")]

def cancelMsg : Json := .obj [("type", .str "cancel")]

/-- A frame on the ordered data channel: a text control message or a binary
chunk payload. -/
inductive Frame where
  | text (msg : Json)
  | binary (payload : List Nat)

/-- Structural worker for `chunks` (fuel-indexed so that the definition
reduces definitionally; `file.length` fuel always suffices since every
round consumes at least one byte). -/
def chunksGo : Nat → List Nat → List (List Nat)
  | 0, _ => []
  | _ + 1, [] => []
  | fuel + 1, a :: rest =>
    (a :: rest).take CHUNK_SIZE :: chunksGo fuel ((a :: rest).drop CHUNK_SIZE)

/-- The chunking performed by the `sendFile` loop: slices at `CHUNK_SIZE`
boundaries in offset order (`readFileChunk(filePath, offset,
min(CHUNK_SIZE, fileSize - offset))`). -/
def chunks (file : List Nat) : List (List Nat) := chunksGo file.length file

/-- Total bytes accumulated by the sender's `bytesTransferred` counter
(`bytesTransferred += chunk.byteLength` over the loop). -/
def sentBytes (file : List Nat) : Nat :=
  ((chunks file).map List.length).sum

/-- The frame sequence emitted by an uncancelled `sendFile` run: one
metadata text frame, the binary chunks in offset order, one completion
text frame. -/
def senderFrames (name : String) (file : List Nat) : List Frame :=
  Frame.text (metadataMsg name file.length)
    :: ((chunks file).map Frame.binary ++ [Frame.text completeMsg])

/-- Per-chunk progress snapshots of the `sendFile` loop: after each chunk,
`bytesTransferred` is the running sum of chunk byte lengths. -/
def senderProgressAux (name : String) (size : Nat) :
    List (List Nat) → Nat → List Prog
  | [], _ => []
  | c :: rest, acc =>
    { fileName := name, fileSize := size,
      bytesTransferred := acc + c.length, status := .transferring }
      :: senderProgressAux name size rest (acc + c.length)

/-- All progress updates emitted by an uncancelled `sendFile` run: the
initial zero snapshot, one snapshot per chunk, and the final `completed`
snapshot (a spread of the last state, so `bytesTransferred` keeps the
accumulated total). -/
def senderProgress (name : String) (file : List Nat) : List Prog :=
  { fileName := name, fileSize := file.length,
    bytesTransferred := 0, status := .transferring }
    :: (senderProgressAux name file.length (chunks file) 0
      ++ [{ fileName := name, fileSize := file.length,
            bytesTransferred := sentBytes file, status := .completed }])

/-! ### Backpressure (sendFile chunk loop vs the native worker path) -/

/-- `CHUNK_SIZE * 4`, the buffered-amount threshold in
`while (peerAny._channel.bufferedAmount > CHUNK_SIZE * 4) await sleep(10)`. -/
def HIGH_WATER_MARK : Nat := CHUNK_SIZE * 4

/-- State of the chunk loop: the chunks not yet sent, in offset order. -/
structure SendLoopState where
  pending : List (List Nat)
deriving DecidableEq, Repr

/-- One scheduling step of the `WebRTCFileTransfer.sendFile` chunk loop.
`bufferedAmount` is the channel's queue depth observed at this step; while
it exceeds the high-water mark the loop only sleeps (sends nothing), and
otherwise it sends the next chunk. -/
def sendLoopStep (bufferedAmount : Nat) (s : SendLoopState) :
    SendLoopState × Option (List Nat) :=
  match s.pending with
  | [] => (s, none)
  | c :: rest =>
    if bufferedAmount > HIGH_WATER_MARK then (s, none)
    else ({ pending := rest }, some c)

/-- One scheduling step of `NativeWebRTCWorker.sendFile`: each chunk is
posted to the worker after a fixed 5 ms delay, without consulting the
channel's buffered-amount (the `buffer-low` worker event is received but
its handler is empty). -/
def nativeSendStep (bufferedAmount : Nat) (s : SendLoopState) :
    SendLoopState × Option (List Nat) :=
  match s.pending with
  | [] => (s, none)
  | c :: rest => ({ pending := rest }, some c)

/-! ### Signaling (NativeWebRTCWorker.signal) -/

/-- An incoming signaling blob: a session description (`signalData.sdp`
present) or an ICE candidate, tagged with an identity to track order. -/
inductive SigData where
  | sdp
  | cand (id : Nat)
deriving DecidableEq, Repr

/-- State of `NativeWebRTCWorker`: the declared candidate queue and flag,
plus the ordered list of signal messages posted to the worker. -/
structure SigState where
  pendingCandidates : List Nat
  remoteDescriptionSet : Bool
  posted : List SigData
deriving DecidableEq, Repr

def initSigState : SigState :=
  { pendingCandidates := [], remoteDescriptionSet := false, posted := [] }

/-- `NativeWebRTCWorker.signal(signalData)`: the blob is posted to the
worker unconditionally; if it carries an `sdp`, `remoteDescriptionSet` is
set and any queued candidates are flushed in order.  No branch of the
method ever pushes into `pendingCandidates`. -/
def signalStep (s : SigState) (d : SigData) : SigState :=
  let s1 : SigState := { s with posted := s.posted ++ [d] }
  match d with
  | .sdp =>
    { s1 with remoteDescriptionSet := true,
              posted := s1.posted ++ s1.pendingCandidates.map SigData.cand,
              pendingCandidates := [] }
  | .cand _ => s1

def signalRun (ds : List SigData) : SigState := ds.foldl signalStep initSigState

/-! ### sendFile precondition (part_010 lines 122-127) -/

inductive SendErr where
  | notConnected
  | transferInProgress
deriving DecidableEq, Repr

/-- The validation at the top of `WebRTCFileTransfer.sendFile`:
`if (!this.peer || !this.peer.connected) throw new Error('Peer not
connected')`.  The `transferInProgress` argument records whether a
transfer is already active on the session; the source consults only the
connection state. -/
def sendFilePre (connected : Bool) (transferInProgress : Bool) :
    Except SendErr Unit :=
  if !connected then .error .notConnected else .ok ()

/-! ### Speed computation -/

/-- A JS `number` as produced by dividing non-negative byte counts:
finite, `Infinity`, or `NaN`. -/
inductive JSNum where
  | fin (q : ℚ)
  | posInf
  | nan
deriving DecidableEq, Repr

/-- JS division for non-negative operands: `x / 0` is `Infinity` for
`x > 0` and `NaN` for `x = 0`. -/
def jsDiv (a b : ℚ) : JSNum :=
  if b = 0 then (if a = 0 then .nan else .posInf) else .fin (a / b)

/-- Speed in `WebRTCFileTransfer.sendFile` (both `webrtc.ts` variants):
`elapsedSeconds > 0 ? bytesTransferred / elapsedSeconds : 0`. -/
def senderSpeed (bytesTransferred elapsedSeconds : ℚ) : JSNum :=
  if elapsedSeconds > 0 then jsDiv bytesTransferred elapsedSeconds else .fin 0

/-- Speed in the worker's `handleFileChunk` and `sendFile`:
`bytesTransferred / elapsed`, with no guard. -/
def workerSpeed (bytesTransferred elapsed : ℚ) : JSNum :=
  jsDiv bytesTransferred elapsed

/-! ### Destination-collision policy (`init-write-stream` and
`save-received-file` IPC handlers)

File names are modelled relative to the downloads directory
(`path.join(downloadsPath, ·)` prefixes every candidate uniformly). -/

/-- `path.extname` / `path.basename(fileName, ext)` on a bare file name:
split at the last dot, except that a name with no dot, or whose only dot
is leading, has no extension. -/
def splitExt (s : String) : String × String :=
  let r := s.data.reverse
  let suf := r.takeWhile (fun c => c ≠ '.')
  if suf.length = r.length ∨ suf.length + 1 = r.length then (s, "")
  else ((s.data.take (r.length - suf.length - 1)).asString,
        (s.data.drop (r.length - suf.length - 1)).asString)

/-- The candidate produced at counter value `n`:
`` `${baseName} (${counter})${ext}` ``. -/
def candName (base ext : String) (n : Nat) : String :=
  base ++ " (" ++ toString n ++ ")" ++ ext

/-- The collision `while` loop, starting from counter value `n`, with
explicit fuel (the source loop is unbounded; `taken.length + 1` fuel is
enough whenever the candidate names are pairwise distinct, since at most
`taken.length` of them can collide). -/
def resolveLoop (taken : List String) (base ext : String) : Nat → Nat → String
  | n, 0 => candName base ext n
  | n, fuel + 1 =>
    if taken.contains (candName base ext n) then
      resolveLoop taken base ext (n + 1) fuel
    else candName base ext n

/-- The full collision policy of the handlers: keep `fileName` when free,
otherwise run the counter loop from 1. -/
def uniqueName (taken : List String) (fileName : String) : String :=
  if taken.contains fileName then
    resolveLoop taken (splitExt fileName).1 (splitExt fileName).2 1 (taken.length + 1)
  else fileName

/-! ### Streaming receiver (`WebRTCFileTransfer.handleIncomingData` plus
the main-process write-stream IPC handlers of part_014) -/

/-- Combined state of the renderer-side receiver and the main process.
`disk` maps a path (relative to downloads) to the bytes written at it;
`activeStreams` is the `activeStreams` map of the main process;
`chunkWarnings` counts the `'Received chunk but no metadata or stream
yet!'` console warning; `errorLog` is the `onErrorCallback` channel, which
no branch of the frame pipeline writes (only transport-level `peer.on
('error')` events do, outside this pipeline). -/
structure RecvState where
  receivedMetadata : Option (String × Nat)
  receivedBytes : Nat
  writeStreamId : Option Nat
  writeStreamPath : Option String
  currentTransfer : Option Prog
  progressLog : List Prog
  chunkWarnings : Nat
  errorLog : List String
  activeStreams : List (Nat × String)
  disk : List (String × List Nat)
  nextStreamId : Nat
deriving DecidableEq, Repr

def initRecvState : RecvState :=
  { receivedMetadata := none, receivedBytes := 0, writeStreamId := none,
    writeStreamPath := none, currentTransfer := none, progressLog := [],
    chunkWarnings := 0, errorLog := [], activeStreams := [], disk := [],
    nextStreamId := 0 }

def diskNames (d : List (String × List Nat)) : List String := d.map Prod.fst

def diskLookup (d : List (String × List Nat)) (p : String) : Option (List Nat) :=
  (d.find? (fun e => e.1 == p)).map (fun e => e.2)

/-- `fsSync.createWriteStream(finalPath)`: creates (or truncates) the file
at the path. -/
def diskCreate (d : List (String × List Nat)) (p : String) :
    List (String × List Nat) :=
  if (d.map Prod.fst).contains p then
    d.map (fun e => if e.1 == p then (e.1, []) else e)
  else d ++ [(p, [])]

/-- Append bytes to the file at `p` (one awaited `stream.write`). -/
def diskAppend (d : List (String × List Nat)) (p : String) (bytes : List Nat) :
    List (String × List Nat) :=
  d.map (fun e => if e.1 == p then (e.1, e.2 ++ bytes) else e)

/-- The `init-write-stream` IPC handler: resolve the name collision
against the downloads directory, create the write stream, register it and
return `(streamId, finalPath)`.  Stream ids are modelled by a fresh
counter (the source uses a timestamp-random string). -/
def initWriteStream (s : RecvState) (fileName : String) :
    RecvState × Nat × String :=
  let finalPath := uniqueName (diskNames s.disk) fileName
  let sid := s.nextStreamId
  ({ s with activeStreams := s.activeStreams ++ [(sid, finalPath)],
            disk := diskCreate s.disk finalPath,
            nextStreamId := sid + 1 }, sid, finalPath)

/-- The `write-chunk` IPC handler: write to the registered stream.  (The
missing-stream rejection path is never reached by the receiver, which
clears `writeStreamId` before de-registering a stream.) -/
def writeChunkIpc (s : RecvState) (sid : Nat) (bytes : List Nat) : RecvState :=
  match s.activeStreams.find? (fun e => e.1 == sid) with
  | some e => { s with disk := diskAppend s.disk e.2 bytes }
  | none => s

/-- The `finalize-write-stream` IPC handler: `stream.end` — flush, close
and de-register; the file remains on disk. -/
def finalizeStreamIpc (s : RecvState) (sid : Nat) : RecvState :=
  { s with activeStreams := s.activeStreams.filter (fun e => !(e.1 == sid)) }

/-- The `cancel-write-stream` IPC handler: `stream.destroy()` and
de-registration.  The handler does not unlink the file, so whatever was
created and written at the path stays on disk.  (`destroy` may drop bytes
still buffered inside the stream; since `write-chunk` is awaited per
chunk, the model keeps the written bytes — claims about cancellation below
rely only on the file's continued existence.) -/
def cancelStreamIpc (s : RecvState) (sid : Nat) : RecvState :=
  { s with activeStreams := s.activeStreams.filter (fun e => !(e.1 == sid)) }

/-- `finalizeReceivedFile`: requires metadata and a stream, finalizes the
stream, emits the `completed` snapshot (a spread of `currentTransfer`, so
`bytesTransferred` is carried over unchecked), and resets the
accumulation state. -/
def finalizeReceivedFile (s : RecvState) : RecvState :=
  match s.receivedMetadata, s.writeStreamId with
  | some _, some sid =>
    let s1 := finalizeStreamIpc s sid
    let s2 := match s1.currentTransfer with
      | some p =>
        let done : Prog := { p with status := .completed }
        { s1 with currentTransfer := some done,
                  progressLog := s1.progressLog ++ [done] }
      | none => s1
    { s2 with writeStreamId := none, writeStreamPath := none,
              receivedMetadata := none, receivedBytes := 0 }
  | _, _ => s

/-- `handleControlMessage`: dispatch on `message.type`. -/
def handleControlMessage (s : RecvState) (m : Json) : RecvState :=
  if isTypeStr m "metadata" then
    let name := jsonStr (getField m "fileName")
    let size := jsonNat (getField m "fileSize")
    let s1 : RecvState :=
      { s with receivedMetadata := some (name, size), receivedBytes := 0 }
    let (s2, sid, p) := initWriteStream s1 name
    let prog : Prog := { fileName := name, fileSize := size,
                         bytesTransferred := 0, status := .transferring }
    { s2 with writeStreamId := some sid, writeStreamPath := some p,
              currentTransfer := some prog,
              progressLog := s2.progressLog ++ [prog] }
  else if isTypeStr m "complete" then
    finalizeReceivedFile s
  else if isTypeStr m "cancel" then
    let s1 : RecvState := match s.writeStreamId with
      | some sid =>
        { cancelStreamIpc s sid with writeStreamId := none,
                                     writeStreamPath := none }
      | none => s
    let s2 : RecvState := match s1.currentTransfer with
      | some p =>
        let c : Prog := { p with status := .cancelled }
        { s1 with currentTransfer := some c,
                  progressLog := s1.progressLog ++ [c] }
      | none => s1
    { s2 with receivedMetadata := none, receivedBytes := 0 }
  else s

/-- The binary-chunk path of `handleIncomingData`: write to the stream and
advance the counters when metadata and a stream are active, otherwise
only log the warning. -/
def binaryChunk (s : RecvState) (bs : List Nat) : RecvState :=
  match s.receivedMetadata, s.writeStreamId with
  | some meta, some sid =>
    let s1 := writeChunkIpc s sid bs
    let rb := s1.receivedBytes + bs.length
    let prog : Prog := { fileName := meta.1, fileSize := meta.2,
                         bytesTransferred := rb, status := .transferring }
    { s1 with receivedBytes := rb, currentTransfer := some prog,
              progressLog := s1.progressLog ++ [prog] }
  | _, _ => { s with chunkWarnings := s.chunkWarnings + 1 }

/-- `handleIncomingData`: text frames are parsed and dispatched as control
messages; a binary frame is speculatively decoded, consumed as control
when it parses as JSON with a truthy `type`, and treated as a chunk
otherwise. -/
def handleIncomingData (s : RecvState) (f : Frame) : RecvState :=
  match f with
  | .text m => handleControlMessage s m
  | .binary bs =>
    match jsonParse? bs with
    | some m =>
      if truthy (getField m "type") then handleControlMessage s m
      else binaryChunk s bs
    | none => binaryChunk s bs

def recvRun (s : RecvState) (frames : List Frame) : RecvState :=
  frames.foldl handleIncomingData s

/-- A binary payload that the speculative decoder does NOT consume as a
control message: it fails to parse as JSON, or parses without a truthy
`type` field.  Such a frame always takes the chunk path. -/
def notCtrlLike (bs : List Nat) : Bool :=
  match jsonParse? bs with
  | some m => !truthy (getField m "type")
  | none => true

/-! ### In-memory receiver (`src/renderer/utils/webrtc.ts`)

This variant dispatches on the frame kind (string frames are control,
binary frames are always chunks) and accumulates chunks in memory, saving
once on `complete` via the `save-received-file` IPC handler. -/

structure MemRecvState where
  receivedChunks : List (List Nat)
  receivedMetadata : Option (String × Nat)
  receivedBytes : Nat
  currentTransfer : Option Prog
  progressLog : List Prog
  saved : List (String × List Nat)
deriving DecidableEq, Repr

def initMemRecvState : MemRecvState :=
  { receivedChunks := [], receivedMetadata := none, receivedBytes := 0,
    currentTransfer := none, progressLog := [], saved := [] }

/-- `saveReceivedFile`: the guard `if (!this.receivedMetadata ||
this.receivedChunks.length === 0) return;` precedes the try/finally, so
with no chunks nothing is saved and nothing is reset; otherwise the
chunks are concatenated, saved, the `completed` snapshot emitted (again a
spread, `bytesTransferred` carried over), and the state reset in the
`finally`. -/
def memSaveReceivedFile (s : MemRecvState) : MemRecvState :=
  match s.receivedMetadata, s.receivedChunks with
  | some meta, c :: cs =>
    let combined := (c :: cs).flatten
    let s1 : MemRecvState := { s with saved := s.saved ++ [(meta.1, combined)] }
    let s2 : MemRecvState := match s1.currentTransfer with
      | some p =>
        let done : Prog := { p with status := .completed }
        { s1 with currentTransfer := some done,
                  progressLog := s1.progressLog ++ [done] }
      | none => s1
    { s2 with receivedChunks := [], receivedMetadata := none,
              receivedBytes := 0 }
  | _, _ => s

/-- `handleIncomingData` of the in-memory variant: string frames are
`JSON.parse`d and dispatched; binary frames are appended whenever metadata
is active and silently ignored otherwise. -/
def memHandleIncomingData (s : MemRecvState) (f : Frame) : MemRecvState :=
  match f with
  | .text m =>
    if isTypeStr m "metadata" then
      let name := jsonStr (getField m "fileName")
      let size := jsonNat (getField m "fileSize")
      let prog : Prog := { fileName := name, fileSize := size,
                           bytesTransferred := 0, status := .transferring }
      { s with receivedMetadata := some (name, size), receivedChunks := [],
               receivedBytes := 0, currentTransfer := some prog,
               progressLog := s.progressLog ++ [prog] }
    else if isTypeStr m "complete" then
      memSaveReceivedFile s
    else if isTypeStr m "cancel" then
      let s1 : MemRecvState := match s.currentTransfer with
        | some p =>
          let c : Prog := { p with status := .cancelled }
          { s with currentTransfer := some c,
                   progressLog := s.progressLog ++ [c] }
        | none => s
      { s1 with receivedChunks := [], receivedMetadata := none,
                receivedBytes := 0 }
    else s
  | .binary bs =>
    match s.receivedMetadata with
    | some meta =>
      let rb := s.receivedBytes + bs.length
      let prog : Prog := { fileName := meta.1, fileSize := meta.2,
                           bytesTransferred := rb, status := .transferring }
      { s with receivedChunks := s.receivedChunks ++ [bs],
               receivedBytes := rb, currentTransfer := some prog,
               progressLog := s.progressLog ++ [prog] }
    | none => s

def memRecvRun (frames : List Frame) : MemRecvState :=
  frames.foldl memHandleIncomingData initMemRecvState

/-- The ten bytes of the JSON text with a single field `type` holding `1`,
written out as UTF-8: an adversarial file whose only chunk the receiver's
speculative decoder consumes as a control message. -/
def jsonTypeFile : List Nat :=
  [0x7B, 0x22, 0x74, 0x79, 0x70, 0x65, 0x22, 0x3A, 0x31, 0x7D]

/-! ## Theorems -/

/-- The fuel of `chunksGo` is irrelevant once it covers the file length. -/
theorem chunksGo_eq (fuel : Nat) :
    ∀ file : List Nat, file.length ≤ fuel →
      chunksGo fuel file = chunksGo file.length file := by
  induction fuel using Nat.strong_induction_on with
  | _ fuel ih =>
    intro file hle
    match fuel, file with
    | 0, [] => rfl
    | 0, a :: rest => simp at hle
    | k + 1, [] => rfl
    | k + 1, a :: rest =>
      have hdrop1 : ((a :: rest).drop CHUNK_SIZE).length ≤ k := by
        simp only [List.length_drop, List.length_cons, CHUNK_SIZE]
        simp only [List.length_cons] at hle
        omega
      have hdrop2 : ((a :: rest).drop CHUNK_SIZE).length ≤ rest.length := by
        simp only [List.length_drop, List.length_cons, CHUNK_SIZE]
        omega
      have h1 := ih k (by omega) _ hdrop1
      have h2 := ih rest.length (by simp only [List.length_cons] at hle; omega)
        _ hdrop2
      simp only [chunksGo, List.length_cons]
      rw [h1, h2]

/-- Unfolding equation of `chunks` on a nonempty file. -/
theorem chunks_cons (a : Nat) (rest : List Nat) :
    chunks (a :: rest) =
      (a :: rest).take CHUNK_SIZE :: chunks ((a :: rest).drop CHUNK_SIZE) := by
  show chunksGo (rest.length + 1) (a :: rest) = _
  simp only [chunksGo]
  congr 1
  exact chunksGo_eq rest.length _
    (by simp only [List.length_drop, List.length_cons, CHUNK_SIZE]; omega)

theorem chunks_flatten_aux :
    ∀ (n : Nat) (file : List Nat), file.length ≤ n →
      (chunks file).flatten = file := by
  intro n
  induction n with
  | zero =>
    intro file h
    have hf : file = [] := List.eq_nil_of_length_eq_zero (Nat.le_zero.mp h)
    subst hf; rfl
  | succ k ih =>
    intro file h
    match file with
    | [] => rfl
    | a :: rest =>
      rw [chunks_cons]
      simp only [List.flatten_cons]
      rw [ih ((a :: rest).drop CHUNK_SIZE)
        (by simp only [List.length_drop, List.length_cons, CHUNK_SIZE]
            simp only [List.length_cons] at h; omega)]
      exact List.take_append_drop _ _

/-- Chunking concatenates back to the original file. -/
theorem chunks_flatten (file : List Nat) : (chunks file).flatten = file :=
  chunks_flatten_aux file.length file le_rfl

/-- The sender's accumulated byte counter over a full run equals the file
size. -/
theorem sentBytes_eq (file : List Nat) : sentBytes file = file.length := by
  have h := congrArg List.length (chunks_flatten file)
  simpa [sentBytes, List.length_flatten] using h

theorem chunks_ne_nil {a : Nat} {rest : List Nat} : chunks (a :: rest) ≠ [] := by
  rw [chunks_cons]; simp

/-! Evaluation lemmas for the control-message dispatch. -/

theorem isTypeStr_metadataMsg (name : String) (size : Nat) :
    isTypeStr (metadataMsg name size) "metadata" = true := rfl

theorem isTypeStr_completeMsg_metadata :
    isTypeStr completeMsg "metadata" = false := rfl

theorem isTypeStr_completeMsg_complete :
    isTypeStr completeMsg "complete" = true := rfl

theorem isTypeStr_cancelMsg_metadata :
    isTypeStr cancelMsg "metadata" = false := rfl

theorem isTypeStr_cancelMsg_complete :
    isTypeStr cancelMsg "complete" = false := rfl

theorem isTypeStr_cancelMsg_cancel :
    isTypeStr cancelMsg "cancel" = true := rfl

theorem getField_metadataMsg_fileName (name : String) (size : Nat) :
    getField (metadataMsg name size) "fileName" = some (.str name) := rfl

theorem getField_metadataMsg_fileSize (name : String) (size : Nat) :
    getField (metadataMsg name size) "fileSize" = some (.num size 0) := rfl

theorem jsonNat_intCast (n : Nat) :
    jsonNat (some (.num (n : Int) 0)) = n := by
  simp [jsonNat]

/-! Step lemmas for the in-memory receiver. -/

theorem memStep_metadata (s : MemRecvState) (name : String) (size : Nat) :
    memHandleIncomingData s (.text (metadataMsg name size)) =
      { s with receivedMetadata := some (name, size), receivedChunks := [],
               receivedBytes := 0,
               currentTransfer := some { fileName := name, fileSize := size, bytesTransferred := 0, status := .transferring },
               progressLog := s.progressLog ++ [{ fileName := name, fileSize := size, bytesTransferred := 0, status := .transferring }] } := by
  simp [memHandleIncomingData, isTypeStr_metadataMsg,
    getField_metadataMsg_fileName, getField_metadataMsg_fileSize, jsonStr,
    jsonNat_intCast]

theorem memStep_complete (s : MemRecvState) :
    memHandleIncomingData s (.text completeMsg) = memSaveReceivedFile s := by
  simp [memHandleIncomingData, isTypeStr_completeMsg_metadata,
    isTypeStr_completeMsg_complete]

theorem memStep_binary (s : MemRecvState) (bs : List Nat) (meta : String × Nat)
    (h : s.receivedMetadata = some meta) :
    memHandleIncomingData s (.binary bs) =
      { s with receivedChunks := s.receivedChunks ++ [bs],
               receivedBytes := s.receivedBytes + bs.length,
               currentTransfer := some { fileName := meta.1, fileSize := meta.2, bytesTransferred := s.receivedBytes + bs.length, status := .transferring },
               progressLog := s.progressLog ++ [{ fileName := meta.1, fileSize := meta.2, bytesTransferred := s.receivedBytes + bs.length, status := .transferring }] } := by
  simp [memHandleIncomingData, h]

/-- Processing a run of binary frames with metadata active appends them to
the accumulated chunk list and saves nothing. -/
theorem memRun_chunks (meta : String × Nat) :
    ∀ (cs : List (List Nat)) (s : MemRecvState),
      s.receivedMetadata = some meta →
      ((cs.map Frame.binary).foldl memHandleIncomingData s).receivedMetadata
          = some meta ∧
      ((cs.map Frame.binary).foldl memHandleIncomingData s).receivedChunks
          = s.receivedChunks ++ cs ∧
      ((cs.map Frame.binary).foldl memHandleIncomingData s).saved = s.saved := by
  intro cs
  induction cs with
  | nil => intro s h; simp [h]
  | cons c rest ih =>
    intro s h
    simp only [List.map_cons, List.foldl_cons]
    have hm' : (memHandleIncomingData s (.binary c)).receivedMetadata
        = some meta := by
      rw [memStep_binary s c meta h]; exact h
    have hch' : (memHandleIncomingData s (.binary c)).receivedChunks
        = s.receivedChunks ++ [c] := by
      rw [memStep_binary s c meta h]
    have hsv' : (memHandleIncomingData s (.binary c)).saved = s.saved := by
      rw [memStep_binary s c meta h]
    obtain ⟨h1, h2, h3⟩ := ih _ hm'
    refine ⟨h1, ?_, by rw [h3, hsv']⟩
    rw [h2, hch']; simp

theorem memSave_saved (t : MemRecvState) (meta : String × Nat) (c : List Nat)
    (cs : List (List Nat)) (hm : t.receivedMetadata = some meta)
    (hc : t.receivedChunks = c :: cs) :
    (memSaveReceivedFile t).saved = t.saved ++ [(meta.1, (c :: cs).flatten)] := by
  unfold memSaveReceivedFile
  rw [hm, hc]
  cases h : t.currentTransfer <;> simp [h]

theorem memSave_noop (t : MemRecvState) (h : t.receivedChunks = []) :
    memSaveReceivedFile t = t := by
  unfold memSaveReceivedFile
  rw [h]
  cases ht : t.receivedMetadata <;> simp

/-- Claim C1, counterexample for the empty-file clause: the transfer of an
empty file is a single metadata frame plus an immediate completion frame
with zero chunk frames, but the receiver does NOT finalize an empty output
file — `saveReceivedFile` returns early when no chunks were received
(nothing is saved, and the accumulation state is not even reset). -/
theorem empty_file_not_finalized :
    (memRecvRun (senderFrames "a.txt" [])).saved = [] ∧
    (memRecvRun (senderFrames "a.txt" [])).receivedMetadata
      = some ("a.txt", 0) ∧
    senderFrames "a.txt" [] =
      [Frame.text (metadataMsg "a.txt" 0), Frame.text completeMsg] :=
  ⟨rfl, rfl, rfl⟩

/-- Claim C1, amended: for every file of size `S ≥ 1`, the sender's
chunking at `CHUNK_SIZE` boundaries followed by the receiver's in-order
reassembly reproduces the original byte sequence exactly (the saved file
equals the input); for `S = 0` the transfer consists of a single metadata
frame and an immediate completion with zero chunk frames, but the receiver
finalizes no output file. -/
theorem memRun_full (name : String) (file : List Nat) (s : MemRecvState)
    (hm : s.receivedMetadata = some (name, file.length))
    (hc : s.receivedChunks = []) (hs : s.saved = []) (hne : file ≠ []) :
    (memSaveReceivedFile
      (List.foldl memHandleIncomingData s ((chunks file).map Frame.binary))).saved
      = [(name, file)] := by
  obtain ⟨a, rest, rfl⟩ : ∃ a rest, file = a :: rest := by
    cases file with
    | nil => exact absurd rfl hne
    | cons a rest => exact ⟨a, rest, rfl⟩
  obtain ⟨h1, h2, h3⟩ :=
    memRun_chunks (name, (a :: rest).length) (chunks (a :: rest)) s hm
  obtain ⟨c, cs, hcc⟩ : ∃ c cs, chunks (a :: rest) = c :: cs := by
    cases hch : chunks (a :: rest) with
    | nil => exact absurd hch chunks_ne_nil
    | cons c cs => exact ⟨c, cs, rfl⟩
  rw [memSave_saved _ (name, (a :: rest).length) c cs h1
    (by rw [h2, hc, hcc]; simp)]
  rw [h3, hs]
  simp only [List.nil_append]
  rw [← hcc, chunks_flatten]

/-- Claim C1, amended: for every file of size `S ≥ 1`, the sender's
chunking at `CHUNK_SIZE` boundaries followed by the receiver's in-order
reassembly reproduces the original byte sequence exactly (the saved file
equals the input); for `S = 0` the transfer consists of a single metadata
frame and an immediate completion with zero chunk frames, but the receiver
finalizes no output file. -/
theorem roundTrip_mem (name : String) (file : List Nat) (h : file ≠ []) :
    (memRecvRun (senderFrames name file)).saved = [(name, file)] ∧
    (memRecvRun (senderFrames name [])).saved = [] := by
  constructor
  · unfold memRecvRun senderFrames
    simp only [List.foldl_cons, List.foldl_append, List.foldl_nil]
    rw [memStep_metadata, memStep_complete]
    exact memRun_full name file _ rfl rfl rfl h
  · rw [show senderFrames name [] =
        [Frame.text (metadataMsg name 0), Frame.text completeMsg] from rfl]
    unfold memRecvRun
    simp only [List.foldl_cons, List.foldl_nil]
    rw [memStep_metadata, memStep_complete, memSave_noop _ (by simp)]
    rfl

/-- Witness for `roundTrip_mem` at a concrete one-byte file. -/
theorem roundTrip_mem_witness :
    (memRecvRun (senderFrames "a.txt" [5])).saved = [("a.txt", [5])] ∧
    (memRecvRun (senderFrames "a.txt" [])).saved = [] :=
  roundTrip_mem "a.txt" [5] (by simp)

/-! Step lemmas for the streaming receiver. -/

theorem recvStep_text (s : RecvState) (m : Json) :
    handleIncomingData s (.text m) = handleControlMessage s m := rfl

/-- A binary frame the decoder does not consume takes the chunk path. -/
theorem notCtrl_chunkPath (s : RecvState) (bs : List Nat)
    (h : notCtrlLike bs = true) :
    handleIncomingData s (.binary bs) = binaryChunk s bs := by
  unfold handleIncomingData
  unfold notCtrlLike at h
  cases hp : jsonParse? bs with
  | none => simp [hp]
  | some m =>
    rw [hp] at h
    simp only [Bool.not_eq_true'] at h
    simp [hp, h]

/-- A binary frame that parses as JSON with a truthy `type` is consumed as
a control message. -/
theorem ctrl_chunk_consumed (s : RecvState) (bs : List Nat) (m : Json)
    (hp : jsonParse? bs = some m)
    (ht : truthy (getField m "type") = true) :
    handleIncomingData s (.binary bs) = handleControlMessage s m := by
  simp only [handleIncomingData]
  rw [hp]
  simp [ht]

theorem recvStep_metadata (s : RecvState) (name : String) (size : Nat) :
    handleControlMessage s (metadataMsg name size) =
      { receivedMetadata := some (name, size), receivedBytes := 0,
        writeStreamId := some s.nextStreamId,
        writeStreamPath := some (uniqueName (diskNames s.disk) name),
        currentTransfer := some { fileName := name, fileSize := size, bytesTransferred := 0, status := .transferring },
        progressLog := s.progressLog ++ [{ fileName := name, fileSize := size, bytesTransferred := 0, status := .transferring }],
        chunkWarnings := s.chunkWarnings, errorLog := s.errorLog,
        activeStreams := s.activeStreams ++
          [(s.nextStreamId, uniqueName (diskNames s.disk) name)],
        disk := diskCreate s.disk (uniqueName (diskNames s.disk) name),
        nextStreamId := s.nextStreamId + 1 } := by
  simp [handleControlMessage, isTypeStr_metadataMsg,
    getField_metadataMsg_fileName, getField_metadataMsg_fileSize, jsonStr,
    jsonNat_intCast, initWriteStream]

theorem recvStep_complete (s : RecvState) :
    handleControlMessage s completeMsg = finalizeReceivedFile s := by
  simp [handleControlMessage, isTypeStr_completeMsg_metadata,
    isTypeStr_completeMsg_complete]

theorem binaryChunk_spec (s : RecvState) (bs : List Nat) (meta : String × Nat)
    (sid : Nat) (p : String) (hm : s.receivedMetadata = some meta)
    (hw : s.writeStreamId = some sid)
    (hf : s.activeStreams.find? (fun e => e.1 == sid) = some (sid, p)) :
    binaryChunk s bs =
      { s with disk := diskAppend s.disk p bs,
               receivedBytes := s.receivedBytes + bs.length,
               currentTransfer := some { fileName := meta.1, fileSize := meta.2, bytesTransferred := s.receivedBytes + bs.length, status := .transferring },
               progressLog := s.progressLog ++ [{ fileName := meta.1, fileSize := meta.2, bytesTransferred := s.receivedBytes + bs.length, status := .transferring }] } := by
  simp only [binaryChunk, writeChunkIpc, hm, hw, hf]

/-- Claim C5, amended: a binary chunk frame received while no metadata (or
no write stream) is active is dropped with a logged console warning only:
it is not written to any output, no error is raised through any observable
channel, no state is reset, and the receiver state is otherwise unchanged
— so subsequent frames are processed exactly as if the stray frame had
never arrived. -/
theorem chunk_without_metadata_dropped (s : RecvState) (bs : List Nat)
    (h1 : notCtrlLike bs = true)
    (h2 : s.receivedMetadata = none ∨ s.writeStreamId = none) :
    handleIncomingData s (.binary bs) =
      { s with chunkWarnings := s.chunkWarnings + 1 } := by
  rw [notCtrl_chunkPath s bs h1]
  unfold binaryChunk
  rcases h2 with h | h
  · rw [h]
  · rw [h]
    cases hm : s.receivedMetadata <;> rfl

/-- Witness for `chunk_without_metadata_dropped` at the initial state and
a one-byte frame. -/
theorem chunk_without_metadata_dropped_witness :
    handleIncomingData initRecvState (.binary [0]) =
      { initRecvState with chunkWarnings := 1 } :=
  chunk_without_metadata_dropped initRecvState [0] rfl (Or.inl rfl)

/-- Claim C5, counterexample: handling a chunk frame in the initial state
(no metadata yet) surfaces NO error at all — the error channel stays
empty and no progress update (in particular none with an error status) is
emitted; only the console-warning counter advances, nothing is written,
and a subsequent well-formed transfer still completes normally.  The
claimed `ProtocolViolation` error report does not exist. -/
theorem chunk_without_metadata_no_error :
    (handleIncomingData initRecvState (.binary [0])).errorLog = [] ∧
    (handleIncomingData initRecvState (.binary [0])).progressLog = [] ∧
    (handleIncomingData initRecvState (.binary [0])).chunkWarnings = 1 ∧
    (handleIncomingData initRecvState (.binary [0])).disk = [] ∧
    (recvRun (handleIncomingData initRecvState (.binary [0]))
        (senderFrames "a.txt" [5])).progressLog.getLast? =
      some { fileName := "a.txt", fileSize := 1, bytesTransferred := 1, status := .completed } :=
  ⟨rfl, rfl, rfl, rfl, rfl⟩

/-- Claim C10: the receiver classifies binary frames by content — every
binary frame whose payload parses as JSON with a truthy `type` field is
consumed as a control message (never appended as file data); concretely,
for the 10-byte file consisting of the JSON text with a `type` field, the
full transfer leaves the saved file EMPTY (received bytes differ from the
sent bytes) and `bytesTransferred` never advances. -/
theorem content_sniffing :
    (∀ (s : RecvState) (bs : List Nat) (m : Json),
        jsonParse? bs = some m → truthy (getField m "type") = true →
        handleIncomingData s (.binary bs) = handleControlMessage s m) ∧
    notCtrlLike jsonTypeFile = false ∧
    jsonTypeFile.length = 10 ∧
    diskLookup (recvRun initRecvState
      (senderFrames "evil" jsonTypeFile)).disk "evil" = some [] ∧
    (recvRun initRecvState (senderFrames "evil" jsonTypeFile)).receivedBytes
      = 0 :=
  ⟨fun s bs m hp ht => ctrl_chunk_consumed s bs m hp ht, rfl, rfl, rfl, rfl⟩

/-- Witness for `content_sniffing` at the concrete adversarial frame. -/
theorem content_sniffing_witness :
    handleIncomingData initRecvState (.binary jsonTypeFile) =
      handleControlMessage initRecvState (Json.obj [("type", Json.num 1 0)]) :=
  content_sniffing.1 initRecvState jsonTypeFile
    (Json.obj [("type", Json.num 1 0)]) rfl rfl

/-- Claim C2, amended: handling a cancel frame while a write stream is
active resets the receiver's accumulation state (byte count 0, metadata
cleared), clears the stream handles, destroys (de-registers) the stream
rather than finalizing it — the only progress update it can emit has the
`cancelled` status, never `completed` — and deletes nothing from disk:
the partially written output file stays at the destination path
(`cancel-write-stream` destroys the stream object but never unlinks the
file). -/
theorem cancel_discards_stream (s : RecvState) (sid : Nat)
    (hw : s.writeStreamId = some sid) :
    (handleIncomingData s (.text cancelMsg)).receivedBytes = 0 ∧
    (handleIncomingData s (.text cancelMsg)).receivedMetadata = none ∧
    (handleIncomingData s (.text cancelMsg)).writeStreamId = none ∧
    (handleIncomingData s (.text cancelMsg)).writeStreamPath = none ∧
    (handleIncomingData s (.text cancelMsg)).activeStreams =
      s.activeStreams.filter (fun e => !(e.1 == sid)) ∧
    (handleIncomingData s (.text cancelMsg)).disk = s.disk ∧
    (∀ p ∈ (handleIncomingData s (.text cancelMsg)).progressLog,
        p ∈ s.progressLog ∨ p.status = TStatus.cancelled) := by
  rw [recvStep_text]
  simp only [handleControlMessage, isTypeStr_cancelMsg_metadata,
    isTypeStr_cancelMsg_complete, isTypeStr_cancelMsg_cancel,
    Bool.false_eq_true, if_false, if_true, hw, cancelStreamIpc]
  cases hc : s.currentTransfer with
  | none =>
    refine ⟨?_, ?_, ?_, ?_, ?_, ?_, ?_⟩ <;> simp only [hc] <;>
      first
        | rfl
        | (intro p hp; exact Or.inl hp)
  | some prog =>
    refine ⟨?_, ?_, ?_, ?_, ?_, ?_, ?_⟩ <;> simp only [hc] <;>
      first
        | rfl
        | (intro p hp
           simp only [List.mem_append, List.mem_singleton] at hp
           rcases hp with hp | hp
           · exact Or.inl hp
           · subst hp
             exact Or.inr rfl)

/-- Witness for `cancel_discards_stream`: a concrete transfer of a
three-byte file cancelled after its only chunk. -/
theorem cancel_discards_stream_witness :
    (handleIncomingData (recvRun initRecvState
        [Frame.text (metadataMsg "a.txt" 3), Frame.binary [1, 2, 3]])
        (.text cancelMsg)).receivedBytes = 0 ∧
    (handleIncomingData (recvRun initRecvState
        [Frame.text (metadataMsg "a.txt" 3), Frame.binary [1, 2, 3]])
        (.text cancelMsg)).receivedMetadata = none ∧
    (handleIncomingData (recvRun initRecvState
        [Frame.text (metadataMsg "a.txt" 3), Frame.binary [1, 2, 3]])
        (.text cancelMsg)).writeStreamId = none ∧
    (handleIncomingData (recvRun initRecvState
        [Frame.text (metadataMsg "a.txt" 3), Frame.binary [1, 2, 3]])
        (.text cancelMsg)).writeStreamPath = none ∧
    (handleIncomingData (recvRun initRecvState
        [Frame.text (metadataMsg "a.txt" 3), Frame.binary [1, 2, 3]])
        (.text cancelMsg)).activeStreams =
      (recvRun initRecvState
        [Frame.text (metadataMsg "a.txt" 3), Frame.binary [1, 2, 3]]
        ).activeStreams.filter (fun e => !(e.1 == 0)) ∧
    (handleIncomingData (recvRun initRecvState
        [Frame.text (metadataMsg "a.txt" 3), Frame.binary [1, 2, 3]])
        (.text cancelMsg)).disk =
      (recvRun initRecvState
        [Frame.text (metadataMsg "a.txt" 3), Frame.binary [1, 2, 3]]).disk ∧
    (∀ p ∈ (handleIncomingData (recvRun initRecvState
          [Frame.text (metadataMsg "a.txt" 3), Frame.binary [1, 2, 3]])
          (.text cancelMsg)).progressLog,
        p ∈ (recvRun initRecvState
          [Frame.text (metadataMsg "a.txt" 3), Frame.binary [1, 2, 3]]
          ).progressLog ∨ p.status = TStatus.cancelled) :=
  cancel_discards_stream
    (recvRun initRecvState
      [Frame.text (metadataMsg "a.txt" 3), Frame.binary [1, 2, 3]]) 0 rfl

/-- Claim C2, counterexample: after metadata, one three-byte chunk and a
cancel frame, the receiver's accumulation state is reset and the stream is
gone — but the partial output file is still on disk at the destination
path with the bytes written so far, refuting "no partial output file is
left on disk". -/
theorem cancel_leaves_partial_file :
    (recvRun initRecvState [Frame.text (metadataMsg "a.txt" 3),
      Frame.binary [1, 2, 3], Frame.text cancelMsg]).disk
      = [("a.txt", [1, 2, 3])] ∧
    (recvRun initRecvState [Frame.text (metadataMsg "a.txt" 3),
      Frame.binary [1, 2, 3], Frame.text cancelMsg]).receivedBytes = 0 ∧
    (recvRun initRecvState [Frame.text (metadataMsg "a.txt" 3),
      Frame.binary [1, 2, 3], Frame.text cancelMsg]).receivedMetadata
      = none ∧
    (recvRun initRecvState [Frame.text (metadataMsg "a.txt" 3),
      Frame.binary [1, 2, 3], Frame.text cancelMsg]).activeStreams = [] :=
  ⟨rfl, rfl, rfl, rfl⟩

/-! Disk and stream bookkeeping lemmas. -/

theorem diskLookup_append (d : List (String × List Nat)) (p : String)
    (bytes : List Nat) :
    diskLookup (diskAppend d p bytes) p
      = (diskLookup d p).map (fun c => c ++ bytes) := by
  induction d with
  | nil => rfl
  | cons e rest ih =>
    cases he : (e.1 == p) with
    | true =>
      simp only [diskAppend, diskLookup, List.map_cons, List.find?_cons, he,
        if_true]
      simp [he]
    | false =>
      simp only [diskAppend, diskLookup, List.map_cons, List.find?_cons, he,
        if_false]
      simpa [diskAppend, diskLookup, he] using ih

theorem find?_append_fresh (l : List (Nat × String)) (sid : Nat) (p : String)
    (h : ∀ e ∈ l, e.1 ≠ sid) :
    (l ++ [(sid, p)]).find? (fun e => e.1 == sid) = some (sid, p) := by
  induction l with
  | nil => simp
  | cons e rest ih =>
    have he : (e.1 == sid) = false := by
      simp only [beq_eq_false_iff_ne, ne_eq]
      exact h e (List.mem_cons_self e rest)
    simp only [List.cons_append, List.find?_cons, he]
    exact ih (fun x hx => h x (List.mem_cons_of_mem e hx))

theorem findCreate_map (p : String) :
    ∀ d : List (String × List Nat), (d.map Prod.fst).contains p = true →
      List.find? (fun e => e.1 == p)
        (d.map (fun e => if e.1 == p then (e.1, ([] : List Nat)) else e))
        = some (p, []) := by
  intro d
  induction d with
  | nil => intro h; simp at h
  | cons e rest ih =>
    intro h
    cases he : (e.1 == p) with
    | true =>
      have hep : e.1 = p := eq_of_beq he
      simp only [List.map_cons, he, if_true, List.find?_cons]
      simp [he, hep]
    | false =>
      have hne : ¬(e.1 = p) := by simpa [beq_eq_false_iff_ne] using he
      have h' : (rest.map Prod.fst).contains p = true := by
        simp only [List.map_cons, List.contains_cons, Bool.or_eq_true] at h
        rcases h with h | h
        · exact absurd (eq_of_beq h).symm hne
        · exact h
      simp only [List.map_cons, he, if_false, List.find?_cons]
      simpa [he] using ih h'

theorem findCreate_append (p : String) :
    ∀ d : List (String × List Nat), (d.map Prod.fst).contains p = false →
      List.find? (fun e => e.1 == p) (d ++ [(p, ([] : List Nat))])
        = some (p, []) := by
  intro d
  induction d with
  | nil => simp
  | cons e rest ih =>
    intro h
    simp only [List.map_cons, List.contains_cons, Bool.or_eq_false_iff] at h
    have hne : ¬(p = e.1) := by simpa [beq_eq_false_iff_ne] using h.1
    have he : (e.1 == p) = false := by
      simp only [beq_eq_false_iff_ne, ne_eq]
      exact fun hh => hne hh.symm
    simp only [List.cons_append, List.find?_cons, he]
    exact ih h.2

theorem diskCreate_lookup (d : List (String × List Nat)) (p : String) :
    diskLookup (diskCreate d p) p = some [] := by
  unfold diskCreate diskLookup
  cases hc : ((d.map Prod.fst).contains p) with
  | true =>
    simp only [hc, if_true]
    rw [findCreate_map p d hc]
    rfl
  | false =>
    simp only [hc, Bool.false_eq_true, if_false]
    rw [findCreate_append p d hc]
    rfl

theorem recvRun_cons (s : RecvState) (f : Frame) (fs : List Frame) :
    recvRun s (f :: fs) = recvRun (handleIncomingData s f) fs := rfl

theorem finalize_spec (s : RecvState) (meta : String × Nat) (sid : Nat)
    (prog : Prog) (hm : s.receivedMetadata = some meta)
    (hw : s.writeStreamId = some sid) (hc : s.currentTransfer = some prog) :
    finalizeReceivedFile s =
      { s with activeStreams := s.activeStreams.filter (fun e => !(e.1 == sid)),
               currentTransfer := some { prog with status := .completed },
               progressLog := s.progressLog ++ [{ prog with status := .completed }],
               writeStreamId := none, writeStreamPath := none,
               receivedMetadata := none, receivedBytes := 0 } := by
  simp only [finalizeReceivedFile, finalizeStreamIpc, hm, hw, hc]

/-- Processing a run of non-control binary frames while a stream is
active: the bytes are appended to the destination file in order and the
counters advance accordingly; nothing else changes. -/
theorem recvRun_chunks (meta : String × Nat) (sid : Nat) (p : String) :
    ∀ (cs : List (List Nat)) (s : RecvState) (content : List Nat),
      (∀ c ∈ cs, notCtrlLike c = true) →
      s.receivedMetadata = some meta →
      s.writeStreamId = some sid →
      s.activeStreams.find? (fun e => e.1 == sid) = some (sid, p) →
      diskLookup s.disk p = some content →
      s.currentTransfer = some { fileName := meta.1, fileSize := meta.2, bytesTransferred := s.receivedBytes, status := .transferring } →
      (recvRun s (cs.map .binary)).receivedMetadata = some meta ∧
      (recvRun s (cs.map .binary)).writeStreamId = some sid ∧
      (recvRun s (cs.map .binary)).activeStreams = s.activeStreams ∧
      diskLookup (recvRun s (cs.map .binary)).disk p
        = some (content ++ cs.flatten) ∧
      (recvRun s (cs.map .binary)).receivedBytes
        = s.receivedBytes + (cs.map List.length).sum ∧
      (recvRun s (cs.map .binary)).currentTransfer
        = some { fileName := meta.1, fileSize := meta.2, bytesTransferred := (recvRun s (cs.map .binary)).receivedBytes, status := .transferring } := by
  intro cs
  induction cs with
  | nil =>
    intro s content hall hm hw hf hd hcur
    refine ⟨hm, hw, rfl, ?_, by simp [recvRun], hcur⟩
    simp only [List.map_nil, recvRun, List.foldl_nil, List.flatten_nil,
      List.append_nil]
    exact hd
  | cons c rest ih =>
    intro s content hall hm hw hf hd hcur
    simp only [List.map_cons, recvRun_cons]
    have hstep : handleIncomingData s (.binary c) = binaryChunk s c :=
      notCtrl_chunkPath s c (hall c (List.mem_cons_self c rest))
    have hrec := binaryChunk_spec s c meta sid p hm hw hf
    have hm' : (handleIncomingData s (.binary c)).receivedMetadata
        = some meta := by rw [hstep, hrec]; exact hm
    have hw' : (handleIncomingData s (.binary c)).writeStreamId
        = some sid := by rw [hstep, hrec]; exact hw
    have hf' : (handleIncomingData s (.binary c)).activeStreams.find?
        (fun e => e.1 == sid) = some (sid, p) := by rw [hstep, hrec]; exact hf
    have ha' : (handleIncomingData s (.binary c)).activeStreams
        = s.activeStreams := by rw [hstep, hrec]
    have hd' : diskLookup (handleIncomingData s (.binary c)).disk p
        = some (content ++ c) := by
      rw [hstep, hrec]
      show diskLookup (diskAppend s.disk p c) p = some (content ++ c)
      rw [diskLookup_append, hd]
      rfl
    have hb' : (handleIncomingData s (.binary c)).receivedBytes
        = s.receivedBytes + c.length := by rw [hstep, hrec]
    have hcur' : (handleIncomingData s (.binary c)).currentTransfer
        = some { fileName := meta.1, fileSize := meta.2, bytesTransferred := (handleIncomingData s (.binary c)).receivedBytes, status := .transferring } := by
      rw [hstep, hrec]
    obtain ⟨g1, g2, g3, g4, g5, g6⟩ := ih (handleIncomingData s (.binary c))
      (content ++ c) (fun x hx => hall x (List.mem_cons_of_mem c hx))
      hm' hw' hf' hd' hcur'
    refine ⟨g1, g2, by rw [g3, ha'], ?_, ?_, g6⟩
    · rw [g4]
      simp [List.append_assoc]
    · rw [g5, hb']
      simp only [List.map_cons, List.sum_cons]
      omega

theorem recvRun_append (s : RecvState) (l1 l2 : List Frame) :
    recvRun s (l1 ++ l2) = recvRun (recvRun s l1) l2 := by
  simp [recvRun]

theorem recvRun_singleton (s : RecvState) (f : Frame) :
    recvRun s [f] = handleIncomingData s f := rfl

/-- Chunk run followed by the completion frame, from any state shaped like
the one the metadata handler produces. -/
theorem recvRun_afterMeta (name : String) (file : List Nat) (s1 : RecvState)
    (sid : Nat) (p : String)
    (hcc : ∀ c ∈ chunks file, notCtrlLike c = true)
    (hm : s1.receivedMetadata = some (name, file.length))
    (hw : s1.writeStreamId = some sid)
    (hf : s1.activeStreams.find? (fun e => e.1 == sid) = some (sid, p))
    (hd : diskLookup s1.disk p = some [])
    (hb : s1.receivedBytes = 0)
    (hcur : s1.currentTransfer = some { fileName := name, fileSize := file.length, bytesTransferred := 0, status := .transferring }) :
    (recvRun s1 ((chunks file).map Frame.binary ++ [Frame.text completeMsg])).progressLog.getLast?
      = some { fileName := name, fileSize := file.length, bytesTransferred := file.length, status := .completed } ∧
    diskLookup (recvRun s1
      ((chunks file).map Frame.binary ++ [Frame.text completeMsg])).disk p
      = some file := by
  rw [recvRun_append]
  obtain ⟨g1, g2, g3, g4, g5, g6⟩ :=
    recvRun_chunks (name, file.length) sid p (chunks file) s1 [] hcc hm hw hf
      hd (by rw [hcur, hb])
  rw [recvRun_singleton, recvStep_text, recvStep_complete]
  have hbytes : (recvRun s1 ((chunks file).map Frame.binary)).receivedBytes
      = file.length := by
    rw [g5, hb]
    have h2 : ((chunks file).map List.length).sum = file.length :=
      sentBytes_eq file
    omega
  rw [finalize_spec _ (name, file.length) sid _ g1 g2 g6]
  constructor
  · simp only [List.getLast?_concat]
    rw [hbytes]
  · simp only
    rw [g4, chunks_flatten]
    rfl

/-- Full streaming transfer: from any fresh-stream-id state, the sender's
frame sequence drives the receiver to a `completed` progress snapshot at
exactly `fileSize` bytes, with the file reassembled on disk. -/
theorem recvFull (name : String) (file : List Nat) (s : RecvState)
    (hcc : ∀ c ∈ chunks file, notCtrlLike c = true)
    (hfresh : ∀ e ∈ s.activeStreams, e.1 ≠ s.nextStreamId) :
    (recvRun s (senderFrames name file)).progressLog.getLast?
      = some { fileName := name, fileSize := file.length, bytesTransferred := file.length, status := .completed } ∧
    diskLookup (recvRun s (senderFrames name file)).disk
      (uniqueName (diskNames s.disk) name) = some file := by
  have hsf : senderFrames name file =
      Frame.text (metadataMsg name file.length)
        :: ((chunks file).map Frame.binary ++ [Frame.text completeMsg]) := rfl
  rw [hsf, recvRun_cons, recvStep_text, recvStep_metadata]
  exact recvRun_afterMeta name file _ s.nextStreamId
    (uniqueName (diskNames s.disk) name) hcc rfl rfl
    (find?_append_fresh s.activeStreams s.nextStreamId _ hfresh)
    (diskCreate_lookup s.disk _) rfl rfl

/-! Sender-side progress lemmas. -/

theorem senderAux_chain (name : String) (size : Nat) :
    ∀ (cs : List (List Nat)) (acc : Nat),
      List.Chain' (· ≤ ·)
        (acc :: ((senderProgressAux name size cs acc).map Prog.bytesTransferred
          ++ [acc + (cs.map List.length).sum])) := by
  intro cs
  induction cs with
  | nil =>
    intro acc
    simp [senderProgressAux, List.chain'_cons]
  | cons c rest ih =>
    intro acc
    simp only [senderProgressAux, List.map_cons, List.cons_append,
      List.sum_cons]
    rw [show acc + (c.length + (rest.map List.length).sum)
          = (acc + c.length) + (rest.map List.length).sum by omega]
    exact List.chain'_cons.mpr ⟨by omega, ih (acc + c.length)⟩

theorem senderAux_le (name : String) (size : Nat) :
    ∀ (cs : List (List Nat)) (acc : Nat),
      ∀ p ∈ senderProgressAux name size cs acc,
        p.bytesTransferred ≤ acc + (cs.map List.length).sum := by
  intro cs
  induction cs with
  | nil => intro acc p hp; simp [senderProgressAux] at hp
  | cons c rest ih =>
    intro acc p hp
    simp only [senderProgressAux, List.mem_cons] at hp
    simp only [List.map_cons, List.sum_cons]
    rcases hp with rfl | hp
    · dsimp only
      omega
    · have := ih (acc + c.length) p hp
      omega

theorem senderAux_status (name : String) (size : Nat) :
    ∀ (cs : List (List Nat)) (acc : Nat),
      ∀ p ∈ senderProgressAux name size cs acc,
        p.status = TStatus.transferring := by
  intro cs
  induction cs with
  | nil => intro acc p hp; simp [senderProgressAux] at hp
  | cons c rest ih =>
    intro acc p hp
    simp only [senderProgressAux, List.mem_cons] at hp
    rcases hp with rfl | hp
    · rfl
    · exact ih (acc + c.length) p hp

/-- Claim C7, counterexample: on the 10-byte JSON-shaped file, the
receiver's only chunk frame is consumed as a control message, the
completion frame is still honored without any byte-count check, and the
receiver reaches `completed` with `bytesTransferred = 0 ≠ fileSize = 10`.
This refutes "`bytesTransferred` equals `fileSize` exactly when the
Completed state is reached / a completion frame is received only after
`bytesTransferred == fileSize`". -/
theorem receiver_completed_without_full_bytes :
    (recvRun initRecvState
        (senderFrames "evil" jsonTypeFile)).progressLog.getLast?
      = some { fileName := "evil", fileSize := 10, bytesTransferred := 0, status := .completed } ∧
    jsonTypeFile.length = 10 :=
  ⟨rfl, rfl⟩

/-- Claim C7, amended: the sender's `bytesTransferred` is monotonically
non-decreasing across its progress updates, never exceeds `fileSize`, and
equals `fileSize` in every `completed` snapshot (the completion frame is
emitted only after the whole file is sent); the receiver reaches
`completed` with `bytesTransferred = fileSize` for every file none of
whose chunks is consumed by the speculative control-message decoder — the
receiver itself performs no byte-count check before finalizing. -/
theorem progress_invariant (name : String) (file : List Nat)
    (hcc : ∀ c ∈ chunks file, notCtrlLike c = true) :
    List.Chain' (· ≤ ·)
      ((senderProgress name file).map Prog.bytesTransferred) ∧
    (∀ p ∈ senderProgress name file,
        p.bytesTransferred ≤ file.length) ∧
    (∀ p ∈ senderProgress name file, p.status = TStatus.completed →
        p.bytesTransferred = file.length) ∧
    (recvRun initRecvState (senderFrames name file)).progressLog.getLast?
      = some { fileName := name, fileSize := file.length, bytesTransferred := file.length, status := .completed } := by
  have hsum : ((chunks file).map List.length).sum = file.length :=
    sentBytes_eq file
  refine ⟨?_, ?_, ?_, ?_⟩
  · have h := senderAux_chain name file.length (chunks file) 0
    simp only [Nat.zero_add] at h
    simpa [senderProgress, sentBytes, List.map_append] using h
  · intro p hp
    simp only [senderProgress, List.mem_cons, List.mem_append,
      List.mem_singleton, List.not_mem_nil, or_false] at hp
    rcases hp with rfl | hp | rfl
    · simp
    · have := senderAux_le name file.length (chunks file) 0 p hp
      omega
    · simp only [sentBytes]
      omega
  · intro p hp hst
    simp only [senderProgress, List.mem_cons, List.mem_append,
      List.mem_singleton, List.not_mem_nil, or_false] at hp
    rcases hp with rfl | hp | rfl
    · simp at hst
    · have := senderAux_status name file.length (chunks file) 0 p hp
      rw [this] at hst
      exact absurd hst (by simp)
    · simp only [sentBytes]
      omega
  · exact (recvFull name file initRecvState hcc (by simp [initRecvState])).1

/-- Witness for `progress_invariant` at a concrete one-byte file. -/
theorem progress_invariant_witness :
    List.Chain' (· ≤ ·)
      ((senderProgress "a.txt" [5]).map Prog.bytesTransferred) ∧
    (∀ p ∈ senderProgress "a.txt" [5],
        p.bytesTransferred ≤ ([5] : List Nat).length) ∧
    (∀ p ∈ senderProgress "a.txt" [5], p.status = TStatus.completed →
        p.bytesTransferred = ([5] : List Nat).length) ∧
    (recvRun initRecvState (senderFrames "a.txt" [5])).progressLog.getLast?
      = some { fileName := "a.txt", fileSize := ([5] : List Nat).length, bytesTransferred := ([5] : List Nat).length, status := .completed } :=
  progress_invariant "a.txt" [5] (by decide)

/-- Claim C3 (code_bug evidence): feeding `NativeWebRTCWorker.signal` an
ICE candidate followed by the session description posts the candidate to
the worker immediately and FIRST — before the description — and the
`pendingCandidates` queue stays empty throughout: no branch of `signal`
ever enqueues a candidate, so the declared queue-and-flush machinery is
dead code and candidates arriving before the session description are not
reordered after it. -/
theorem signal_candidate_not_queued :
    signalRun [SigData.cand 7, SigData.sdp] =
      { pendingCandidates := [], remoteDescriptionSet := true,
        posted := [SigData.cand 7, SigData.sdp] } ∧
    (signalStep initSigState (SigData.cand 7)).pendingCandidates = [] :=
  ⟨rfl, rfl⟩

/-- Claim C4, counterexample: the claim's cited `NativeWebRTCWorker.sendFile`
path emits a chunk even when the observed buffered-amount is strictly
above the high-water mark, refuting "a chunk frame is never sent while
buffered-amount is above the mark" for that sender. -/
theorem native_send_ignores_backpressure :
    nativeSendStep (HIGH_WATER_MARK + 1) ⟨[[1]]⟩ = (⟨[]⟩, some [1]) := rfl

/-- Claim C4, amended: in the `WebRTCFileTransfer.sendFile` chunk loop the
backpressure contract holds — a chunk is sent at a step only if the
buffered-amount observed at that step is at or below the high-water mark
`4 * CHUNK_SIZE`; while the buffered-amount exceeds the mark, the loop
suspends (sends nothing and consumes nothing); and as soon as it is back
at or below the mark, the next pending chunk is sent. -/
theorem sendLoop_backpressure :
    (∀ (buf : Nat) (s s' : SendLoopState) (c : List Nat),
        sendLoopStep buf s = (s', some c) → buf ≤ HIGH_WATER_MARK) ∧
    (∀ (buf : Nat) (s : SendLoopState), buf > HIGH_WATER_MARK →
        sendLoopStep buf s = (s, none)) ∧
    (∀ (buf : Nat) (c : List Nat) (rest : List (List Nat)),
        buf ≤ HIGH_WATER_MARK →
        sendLoopStep buf ⟨c :: rest⟩ = (⟨rest⟩, some c)) := by
  refine ⟨?_, ?_, ?_⟩
  · intro buf s s' c h
    rcases s with ⟨pending⟩
    cases pending with
    | nil => simp [sendLoopStep] at h
    | cons hd tl =>
      by_contra hgt
      simp [sendLoopStep, Nat.lt_of_not_le hgt] at h
  · intro buf s h
    rcases s with ⟨pending⟩
    cases pending with
    | nil => simp [sendLoopStep]
    | cons hd tl => simp [sendLoopStep, h]
  · intro buf c rest h
    simp [sendLoopStep, Nat.not_lt.mpr h]

/-- Witness for `sendLoop_backpressure` at concrete inputs. -/
theorem sendLoop_backpressure_witness :
    sendLoopStep 0 ⟨[[1]]⟩ = (⟨[]⟩, some [1]) :=
  sendLoop_backpressure.2.2 0 [1] [] (by decide)

/-- Claim C6, counterexample: with the channel open and a transfer already
in progress, `WebRTCFileTransfer.sendFile` does NOT fail — its only guard
is the connectivity check, so there is no `TransferInProgressError`. -/
theorem sendFilePre_no_in_progress_check :
    sendFilePre true true = Except.ok () := rfl

/-- Claim C6, amended: starting a send fails with the not-connected error
(`throw new Error('Peer not connected')`) exactly when the channel is not
open; when it is open the validation passes regardless of whether a
transfer is already in progress (no transfer-in-progress check exists). -/
theorem sendFilePre_spec :
    ∀ inProgress : Bool,
      sendFilePre false inProgress = Except.error SendErr.notConnected ∧
      sendFilePre true inProgress = Except.ok () := by
  intro inProgress
  exact ⟨rfl, rfl⟩

/-! Collision-loop lemmas for claim C8. -/

/-- If some candidate within the fuel budget is free, the collision loop
returns the FIRST free candidate at or after its starting counter. -/
theorem resolveLoop_found (taken : List String) (base ext : String) :
    ∀ (fuel n : Nat),
      (∃ k, n ≤ k ∧ k ≤ n + fuel ∧
        taken.contains (candName base ext k) = false) →
      ∃ k, resolveLoop taken base ext n fuel = candName base ext k ∧
        n ≤ k ∧ taken.contains (candName base ext k) = false ∧
        ∀ m, n ≤ m → m < k → taken.contains (candName base ext m) = true := by
  intro fuel
  induction fuel with
  | zero =>
    rintro n ⟨k, hk1, hk2, hk3⟩
    have hkn : k = n := by omega
    subst hkn
    exact ⟨k, rfl, le_rfl, hk3, fun m h1 h2 => by omega⟩
  | succ fuel ih =>
    rintro n ⟨k, hk1, hk2, hk3⟩
    by_cases hc : taken.contains (candName base ext n) = true
    · have hkn : k ≠ n := by
        intro he
        rw [← he, hk3] at hc
        exact Bool.false_ne_true hc
      obtain ⟨q, e1, e2, e3, e4⟩ := ih (n + 1) ⟨k, by omega, by omega, hk3⟩
      refine ⟨q, ?_, by omega, e3, ?_⟩
      · simp only [resolveLoop, hc, if_true]
        exact e1
      · intro m h1 h2
        rcases Nat.eq_or_lt_of_le h1 with h | h
        · rw [← h]; exact hc
        · exact e4 m (by omega) h2
    · have hc' : taken.contains (candName base ext n) = false :=
        Bool.not_eq_true _ ▸ Bool.of_not_eq_true hc
      refine ⟨n, ?_, le_rfl, hc', fun m h1 h2 => by omega⟩
      simp only [resolveLoop, hc', Bool.false_eq_true, if_false]

/-- Pigeonhole: among the candidates `1 .. taken.length + 2`, pairwise
distinct by hypothesis, at least one is not taken. -/
theorem exists_free_cand (taken : List String) (base ext : String)
    (hinj : ∀ i < taken.length + 2, ∀ j < taken.length + 2,
        candName base ext i = candName base ext j → i = j) :
    ∃ k, 1 ≤ k ∧ k ≤ 1 + (taken.length + 1) ∧
      taken.contains (candName base ext k) = false := by
  by_contra hno
  push_neg at hno
  have hall : ∀ k, 1 ≤ k → k ≤ taken.length + 2 →
      candName base ext k ∈ taken := by
    intro k h1 h2
    have h3 := hno k h1 (by omega)
    have h4 : taken.contains (candName base ext k) = true := by
      cases hvb : taken.contains (candName base ext k) with
      | true => rfl
      | false => exact absurd hvb h3
    exact List.elem_iff.mp h4
  have hnd : ((List.range (taken.length + 1)).map
      (fun i => candName base ext (i + 1))).Nodup := by
    refine List.Nodup.map_on ?_ (List.nodup_range _)
    intro x hx y hy hxy
    simp only [List.mem_range] at hx hy
    have := hinj (x + 1) (by omega) (y + 1) (by omega) hxy
    omega
  have hsub : ((List.range (taken.length + 1)).map
      (fun i => candName base ext (i + 1))) ⊆ taken := by
    intro x hx
    simp only [List.mem_map, List.mem_range] at hx
    obtain ⟨i, hi, rfl⟩ := hx
    exact hall (i + 1) (by omega) (by omega)
  have hlen := (List.subperm_of_subset hnd hsub).length_le
  simp only [List.length_map, List.length_range] at hlen
  omega

/-- Claim C8: if the incoming file name is free at the destination it is
kept; if it already exists, the saved name is `base (n)ext` for the least
`n ≥ 1` that is free, every smaller counter value being taken — in
particular an existing `photo.png` is saved as `photo (1).png`, and if
that also exists, `photo (2).png`.  (The hypothesis records that the
numbered candidates are pairwise distinct strings — decimal numbering
makes this so — which bounds the search.) -/
theorem collision_policy (taken : List String) (fileName : String)
    (hinj : ∀ i < taken.length + 2, ∀ j < taken.length + 2,
        candName (splitExt fileName).1 (splitExt fileName).2 i
          = candName (splitExt fileName).1 (splitExt fileName).2 j → i = j) :
    (taken.contains fileName = false →
      uniqueName taken fileName = fileName) ∧
    (taken.contains fileName = true →
      ∃ n, 1 ≤ n ∧
        uniqueName taken fileName
          = candName (splitExt fileName).1 (splitExt fileName).2 n ∧
        taken.contains
          (candName (splitExt fileName).1 (splitExt fileName).2 n) = false ∧
        ∀ m, 1 ≤ m → m < n →
          taken.contains
            (candName (splitExt fileName).1 (splitExt fileName).2 m)
            = true) ∧
    uniqueName ["photo.png"] "photo.png" = "photo (1).png" ∧
    uniqueName ["photo.png", "photo (1).png"] "photo.png"
      = "photo (2).png" := by
  refine ⟨?_, ?_, rfl, rfl⟩
  · intro h
    unfold uniqueName
    rw [if_neg (by intro hc; rw [h] at hc; exact Bool.false_ne_true hc)]
  · intro h
    obtain ⟨q, e1, e2, e3, e4⟩ :=
      resolveLoop_found taken (splitExt fileName).1 (splitExt fileName).2
        (taken.length + 1) 1
        (exists_free_cand taken (splitExt fileName).1 (splitExt fileName).2
          hinj)
    refine ⟨q, e2, ?_, e3, e4⟩
    unfold uniqueName
    rw [if_pos h]
    exact e1

/-- Witness for `collision_policy` at the concrete scenario. -/
theorem collision_policy_witness :
    ((["photo.png"] : List String).contains "photo.png" = false →
      uniqueName ["photo.png"] "photo.png" = "photo.png") ∧
    ((["photo.png"] : List String).contains "photo.png" = true →
      ∃ n, 1 ≤ n ∧
        uniqueName ["photo.png"] "photo.png"
          = candName (splitExt "photo.png").1 (splitExt "photo.png").2 n ∧
        (["photo.png"] : List String).contains
          (candName (splitExt "photo.png").1 (splitExt "photo.png").2 n)
          = false ∧
        ∀ m, 1 ≤ m → m < n →
          (["photo.png"] : List String).contains
            (candName (splitExt "photo.png").1 (splitExt "photo.png").2 m)
            = true) ∧
    uniqueName ["photo.png"] "photo.png" = "photo (1).png" ∧
    uniqueName ["photo.png", "photo (1).png"] "photo.png"
      = "photo (2).png" :=
  collision_policy ["photo.png"] "photo.png" (by decide)

/-- Claim C9, counterexample: the worker paths (`handleFileChunk`,
worker `sendFile`) compute `speed = bytesTransferred / elapsed` with no
guard, so a progress update with positive bytes at `elapsedSeconds = 0`
reports `Infinity`. -/
theorem workerSpeed_infinity :
    workerSpeed 65536 0 = JSNum.posInf := by
  simp [workerSpeed, jsDiv]

/-- Claim C9, amended: the speed computed by `WebRTCFileTransfer.sendFile`
is guarded (`elapsedSeconds > 0 ? bytes / elapsedSeconds : 0`) and is
always a finite number — never `Infinity` or `NaN`; the native worker's
unguarded computation instead yields `Infinity` whenever
`elapsedSeconds = 0` and the byte count is positive. -/
theorem speed_guard_spec :
    (∀ b e : ℚ, ∃ q : ℚ, senderSpeed b e = JSNum.fin q) ∧
    (∀ b : ℚ, b ≠ 0 → workerSpeed b 0 = JSNum.posInf) := by
  constructor
  · intro b e
    by_cases h : e > 0
    · exact ⟨b / e, by simp [senderSpeed, jsDiv, h, ne_of_gt h]⟩
    · exact ⟨0, by simp [senderSpeed, h]⟩
  · intro b hb
    simp [workerSpeed, jsDiv, hb]

/-- Witness for `speed_guard_spec` at concrete inputs. -/
theorem speed_guard_spec_witness :
    (∃ q : ℚ, senderSpeed 100 0 = JSNum.fin q) ∧
    workerSpeed 100 0 = JSNum.posInf :=
  ⟨speed_guard_spec.1 100 0, speed_guard_spec.2 100 (by norm_num)⟩

end Drizzle
